import Mathlib

/-
Verification development for the Base64 Stream Recovery Engine of the
pdfbase64tofile repository (src/main.rs).  The definitions below are a
shallow embedding of the functions run_stream_decoding,
recover_jpegs_from_stream and perform_hex_jump of the PdfApp impl.
Strings are modelled as lists of unicode scalar values (Char); Rust byte
strings as lists of Nat; the two external crates (the base64 engine and
the image crate) are modelled as explicit function parameters, since
their code is not part of this repository.
-/

namespace B64Recover

/-- Model of the Rust std function char::is_alphanumeric, which tests the
Unicode Alphabetic and Number properties.  The table is exact for every
code point below U+0100 (ASCII plus the Latin-1 supplement); code points
at or above U+0100 are mapped to false.  No theorem below depends on the
value of this predicate at code points at or above U+0100: the theorems
quantifying over arbitrary characters hold for every value of the
predicate there, and all concrete evaluations stay below U+0100. -/
def rust_is_alphanumeric (c : Char) : Bool :=
  (c.isAlpha || c.isDigit) ||
  (c.toNat = 0xAA || c.toNat = 0xB5 || c.toNat = 0xBA) ||
  (c.toNat = 0xB2 || c.toNat = 0xB3 || c.toNat = 0xB9) ||
  (0xBC ≤ c.toNat && c.toNat ≤ 0xBE) ||
  (0xC0 ≤ c.toNat && c.toNat ≤ 0xFF && c.toNat ≠ 0xD7 && c.toNat ≠ 0xF7)

/-- Model of the Rust std function char::is_whitespace: the exact list of
code points with the Unicode White_Space property. -/
def rust_is_whitespace (c : Char) : Bool :=
  c.toNat = 0x09 || c.toNat = 0x0A || c.toNat = 0x0B || c.toNat = 0x0C ||
  c.toNat = 0x0D || c.toNat = 0x20 || c.toNat = 0x85 || c.toNat = 0xA0 ||
  c.toNat = 0x1680 || (0x2000 ≤ c.toNat && c.toNat ≤ 0x200A) ||
  c.toNat = 0x2028 || c.toNat = 0x2029 || c.toNat = 0x202F ||
  c.toNat = 0x205F || c.toNat = 0x3000

/-- The character filter of the Stream Sanitizer, from main.rs line 309:
the closure (c.is_alphanumeric() or c equals the plus sign or the slash)
passed to filter in run_stream_decoding. -/
def clean_keep (c : Char) : Bool :=
  rust_is_alphanumeric c || c == '+' || c == '/'

/-- The character filter of the Offset Locator, from main.rs line 425:
the condition (c.is_alphanumeric() or c equals the plus sign or the
slash) tested while walking fragment characters in perform_hex_jump. -/
def loc_keep (c : Char) : Bool :=
  rust_is_alphanumeric c || c == '+' || c == '/'

/-- The Stream Sanitizer of run_stream_decoding, main.rs lines 308 to
310: keep exactly the characters accepted by clean_keep. -/
def sanitize (s : List Char) : List Char :=
  s.filter clean_keep

/-- Follows the words of the specification only, not the source: the
64 character standard Base64 alphabet, A to Z, a to z, 0 to 9, plus and
slash, that section 4.2 of the specification names as the set of
retained characters. -/
def spec_base64_char (c : Char) : Bool :=
  ('A' ≤ c && c ≤ 'Z') || ('a' ≤ c && c ≤ 'z') ||
  ('0' ≤ c && c ≤ '9') || c == '+' || c == '/'

/-- UTF-8 encoding of one unicode scalar value, as Rust String stores
its characters. -/
def utf8EncodeChar (c : Char) : List Nat :=
  let n := c.toNat
  if n < 0x80 then [n]
  else if n < 0x800 then [0xC0 + n / 64, 0x80 + n % 64]
  else if n < 0x10000 then [0xE0 + n / 4096, 0x80 + n / 64 % 64, 0x80 + n % 64]
  else [0xF0 + n / 262144, 0x80 + n / 4096 % 64, 0x80 + n / 64 % 64, 0x80 + n % 64]

/-- The UTF-8 byte representation of a Rust String given as its list of
characters. -/
def utf8Encode (s : List Char) : List Nat :=
  (s.map utf8EncodeChar).flatten

/-- Model of the Rust str method is_char_boundary on the UTF-8 bytes of
a string: position 0 and the past-the-end position are boundaries, any
other position is a boundary exactly when the byte there is not a UTF-8
continuation byte (0x80 to 0xBF). -/
def is_char_boundary (bytes : List Nat) (i : Nat) : Bool :=
  i == 0 || i == bytes.length ||
    (match bytes[i]? with
     | some b => decide (b < 0x80 ∨ 0xC0 ≤ b)
     | none => false)

/-- Model of Rust string slicing s[i..j]: some slice when i ≤ j and both
ends are character boundaries, none in exactly the cases where Rust
panics (out of range or not on a boundary). -/
def str_slice (bytes : List Nat) (i j : Nat) : Option (List Nat) :=
  if i ≤ j ∧ is_char_boundary bytes i ∧ is_char_boundary bytes j then
    some ((bytes.drop i).take (j - i))
  else
    none

/-- Value of one ASCII decimal digit byte. -/
def ascii_digit_val (b : Nat) : Option Nat :=
  if 0x30 ≤ b ∧ b ≤ 0x39 then some (b - 0x30) else none

/-- Accumulate the decimal value of a run of ASCII digit bytes; none as
soon as a byte is not a digit. -/
def digitsAcc (acc : Nat) : List Nat → Option Nat
  | [] => some acc
  | b :: rest =>
    match ascii_digit_val b with
    | some d => digitsAcc (acc * 10 + d) rest
    | none => none

/-- Model of the Rust str parse method for an unsigned integer type with
exclusive upper bound given by the second argument: an optional leading
plus sign, then a nonempty run of ASCII decimal digits whose value fits
below the bound; everything else is a parse error (none).  Overflow at
any intermediate step is equivalent to the final value reaching the
bound, since appending digits never decreases the value. -/
def rust_parse_nat_bytes (bs : List Nat) (bound : Nat) : Option Nat :=
  let digits := match bs with
    | 0x2B :: rest => rest
    | _ => bs
  match digits with
  | [] => none
  | _ =>
    match digitsAcc 0 digits with
    | some v => if v < bound then some v else none
    | none => none

/-- Value of one ASCII hexadecimal digit character. -/
def hex_val (c : Char) : Option Nat :=
  if '0' ≤ c ∧ c ≤ '9' then some (c.toNat - 0x30)
  else if 'a' ≤ c ∧ c ≤ 'f' then some (c.toNat - 0x61 + 10)
  else if 'A' ≤ c ∧ c ≤ 'F' then some (c.toNat - 0x41 + 10)
  else none

/-- Accumulate the value of a run of hexadecimal digit characters; none
as soon as a character is not a hexadecimal digit. -/
def hexAcc (acc : Nat) : List Char → Option Nat
  | [] => some acc
  | c :: rest =>
    match hex_val c with
    | some d => hexAcc (acc * 16 + d) rest
    | none => none

/-- Model of u64::from_str_radix with radix 16: an optional leading plus
sign, then a nonempty run of hexadecimal digits whose value fits in 64
bits. -/
def from_str_radix16 (s : List Char) : Option Nat :=
  let digits := match s with
    | '+' :: rest => rest
    | _ => s
  match digits with
  | [] => none
  | _ =>
    match hexAcc 0 digits with
    | some v => if v < 2 ^ 64 then some v else none
    | none => none

/-- Model of the Rust str trim method: drop White_Space characters from
both ends. -/
def trimChars (s : List Char) : List Char :=
  ((s.dropWhile rust_is_whitespace).reverse.dropWhile rust_is_whitespace).reverse

/-- Model of trim_start_matches with the pattern 0x: repeatedly remove
the prefix 0x as long as it is present, as the Rust method does. -/
def strip0x : List Char → List Char
  | '0' :: 'x' :: rest => strip0x rest
  | s => s

/-- A fragment as discovered on disk: its file name and its text
content, both as character lists. -/
abbrev Frag := List Char × List Char

/-- The directory filter of both run_stream_decoding (lines 280 to 283)
and perform_hex_jump (lines 403 to 406): the file name starts with page
and ends with .txt. -/
def page_name_filter (name : List Char) : Bool :=
  "page".data.isPrefixOf name && ".txt".data.isSuffixOf name

/-- The sort key of run_stream_decoding, main.rs lines 287 to 291: the
byte slice name[4..len-4] of the UTF-8 bytes of the file name, parsed as
a u32, with 9999 substituted when the parse fails.  The slice is modelled
by drop and take; the separate theorem on str_slice shows that for every
name passing page_name_filter the slice operation cannot panic, so the
two agree on every name this key is applied to. -/
def run_seq_key (name : List Char) : Nat :=
  let bytes := utf8Encode name
  (rust_parse_nat_bytes ((bytes.drop 4).take (bytes.length - 8)) (2 ^ 32)).getD 9999

/-- The sort key of perform_hex_jump, main.rs lines 409 to 413: the
ASCII digits of the file name, in order, parsed as a u32, with 9999
substituted when the parse fails. -/
def loc_seq_key (name : List Char) : Nat :=
  (rust_parse_nat_bytes ((name.filter Char.isDigit).map Char.toNat) (2 ^ 32)).getD 9999

/-- Comparison by a Nat valued key, the relation the file sorts use. -/
def keyLe {α : Type} (key : α → Nat) (a b : α) : Prop :=
  key a ≤ key b

instance {α : Type} (key : α → Nat) : DecidableRel (keyLe key) :=
  fun a b => Nat.decLe (key a) (key b)

instance {α : Type} (key : α → Nat) : IsTotal α (keyLe key) :=
  ⟨fun a b => Nat.le_total (key a) (key b)⟩

instance {α : Type} (key : α → Nat) : IsTrans α (keyLe key) :=
  ⟨fun _ _ _ => Nat.le_trans⟩

/-- Model of the Rust slice method sort_by_key, which is a stable sort:
insertion sort is stable, and a stable sort ascending by key is unique,
so this agrees with the source on every input. -/
def sortByKey {α : Type} (key : α → Nat) (l : List α) : List α :=
  l.insertionSort (keyLe key)

/-- The filtered and sorted file list built by run_stream_decoding,
main.rs lines 278 to 291. -/
def sorted_run_files (es : List Frag) : List Frag :=
  sortByKey (fun e => run_seq_key e.1) (es.filter (fun e => page_name_filter e.1))

/-- The filtered and sorted file list built by perform_hex_jump,
main.rs lines 400 to 414. -/
def sorted_loc_files (es : List Frag) : List Frag :=
  sortByKey (fun e => loc_seq_key e.1) (es.filter (fun e => page_name_filter e.1))

/-- The Encoded Stream: the concatenation of the contents of the sorted
fragments, main.rs line 301. -/
def encoded_stream (es : List Frag) : List Char :=
  ((sorted_run_files es).map (fun e => e.2)).flatten

/-- The Clean Encoded Stream: the Encoded Stream after the Stream
Sanitizer, main.rs lines 308 to 310. -/
def clean_stream (es : List Frag) : List Char :=
  sanitize (encoded_stream es)

/-- A decoded image as exposed by the external image crate: dimensions
and pixel data, modelled abstractly. -/
structure JpegImage where
  width : Nat
  height : Nat
  pixels : List Nat
deriving DecidableEq

/-- The pipeline state the run mutates: the recovered textures and the
log lines, the two fields of PdfApp that run_stream_decoding and
recover_jpegs_from_stream touch. -/
structure AppState where
  decoded_textures : List JpegImage
  decode_logs : List String
deriving DecidableEq

/-- Append one log line, as self.decode_logs.push does. -/
def pushLog (st : AppState) (line : String) : AppState :=
  { st with decode_logs := st.decode_logs ++ [line] }

/-- The Payload Scanner, main.rs lines 334 to 375
(recover_jpegs_from_stream).  The whole buffer decode performed by the
external image crate is passed in as the function jpeg_decode; on
success the texture and a success line are appended, on failure only a
failure line carrying the error text is appended. -/
def recover_jpegs_from_stream (jpeg_decode : List Nat → Except String JpegImage)
    (st : AppState) (bytes : List Nat) : AppState :=
  match jpeg_decode bytes with
  | .ok img =>
      { decoded_textures := st.decoded_textures ++ [img],
        decode_logs := st.decode_logs ++ ["-> SUCCESS: Recovered image"] }
  | .error e =>
      { st with decode_logs := st.decode_logs ++ ["-> FAILED to decode image: " ++ e] }

/-- The forward pipeline, main.rs lines 268 to 331
(run_stream_decoding).  The permissive Base64 engine of the external
base64 crate is passed in as the function b64_decode, acting on the
UTF-8 bytes of the cleaned string; the image decode as jpeg_decode.  The
previous state is an argument only to mirror the mutable receiver: both
vectors are cleared before any other work, so the result never depends
on it.  Unreadable files are not modelled: every discovered entry
carries its content. -/
def run_stream_decoding (b64_decode : List Nat → Except String (List Nat))
    (jpeg_decode : List Nat → Except String JpegImage)
    (_prev : AppState) (entries : List Frag) : AppState :=
  let st : AppState := { decoded_textures := [], decode_logs := [] }
  let st := pushLog st "Scanning current directory for page*.txt..."
  let files := sorted_run_files entries
  let st := files.foldl (fun acc f => pushLog acc ("Loaded: \"" ++ String.mk f.1 ++ "\"")) st
  let raw := (files.map (fun e => e.2)).flatten
  let st := pushLog st ("Total raw length: " ++ toString (utf8Encode raw).length ++ " characters")
  let clean := sanitize raw
  let st := pushLog st
    ("Cleaned Base64 length: " ++ toString (utf8Encode clean).length ++ " characters")
  match b64_decode (utf8Encode clean) with
  | .ok bytes =>
      recover_jpegs_from_stream jpeg_decode
        (pushLog st ("Decoded into " ++ toString bytes.length ++ " bytes of binary data")) bytes
  | .error e =>
      pushLog st ("CRITICAL: Base64 decoding failed even with permissive mode: " ++ e)

/-- Result of the Offset Locator, main.rs lines 378 to 463
(perform_hex_jump): the distinct malformed input status, or the found
page index (zero based) with the in-fragment character index, or the out
of bounds report carrying the count reached. -/
inductive JumpResult where
  | invalidHex : JumpResult
  | found : Nat → Nat → JumpResult
  | outOfBounds : Nat → JumpResult
deriving DecidableEq

/-- The page index computed in the found branch, main.rs lines 428 to
433: the ASCII digits of the file name parsed as a u16, minus one when
positive; none when the parse fails, in which case the branch does not
fire. -/
def page_index_of (name : List Char) : Option Nat :=
  (rust_parse_nat_bytes ((name.filter Char.isDigit).map Char.toNat) (2 ^ 16)).map
    (fun pn => if 0 < pn then pn - 1 else 0)

/-- The inner character walk of perform_hex_jump, main.rs lines 422 to
440, over one fragment content: idx is the enumerate index, cnt the
running count of filter accepted characters.  When an accepted character
is met with cnt equal to the target, the walk stops with the page index
and idx if the page number parses (the break), and otherwise falls
through to the increment and continues, exactly as the source does.
Returns the found pair, if any, and the updated count. -/
def scanFile (pi? : Option Nat) (target : Nat) :
    List Char → Nat → Nat → Option (Nat × Nat) × Nat
  | [], _, cnt => (none, cnt)
  | c :: rest, idx, cnt =>
    if loc_keep c then
      if cnt = target then
        match pi? with
        | some pi => (some (pi, idx), cnt)
        | none => scanFile pi? target rest (idx + 1) (cnt + 1)
      else scanFile pi? target rest (idx + 1) (cnt + 1)
    else scanFile pi? target rest (idx + 1) cnt

/-- The file loop of perform_hex_jump, main.rs lines 419 to 442: walk
the sorted fragments threading the running count, stopping at the first
found pair. -/
def scanFiles (target : Nat) : List Frag → Nat → Option (Nat × Nat) × Nat
  | [], cnt => (none, cnt)
  | f :: rest, cnt =>
    match scanFile (page_index_of f.1) target f.2 0 cnt with
    | (some r, c) => (some r, c)
    | (none, c) => scanFiles target rest c

/-- The Offset Locator, main.rs lines 378 to 463 (perform_hex_jump):
trim the input, strip every leading 0x, parse as hexadecimal u64; on
failure the distinct malformed status; otherwise derive the encoded
domain target index (offset / 3) * 4 and walk the sorted corpus.  The
index is computed in u64: for accepted offsets at or above
0xC000000000000000 the multiplication by 4 overflows, wrapping modulo
2 to the 64 in release builds (debug builds abort instead); the release
wrap is what the mod below models.  The division by 3 cannot
overflow. -/
def perform_hex_jump (hex_input : List Char) (entries : List Frag) : JumpResult :=
  match from_str_radix16 (strip0x (trimChars hex_input)) with
  | none => .invalidHex
  | some off =>
    let target := off / 3 * 4 % 2 ^ 64
    match scanFiles target (sorted_loc_files entries) 0 with
    | (some (pi, pos), _) => .found pi pos
    | (none, cnt) => .outOfBounds cnt

/-- Follows the words of claim C7 only, not the source: an input is well
formed hexadecimal when, after trimming whitespace and removing one
optional leading radix prefix 0x, a nonempty string of hexadecimal
digits remains. -/
def spec_wellformed_hex (s : List Char) : Bool :=
  let t := trimChars s
  let t := if "0x".data.isPrefixOf t then t.drop 2 else t
  !t.isEmpty && t.all (fun c => (hex_val c).isSome)

/-- The total number of filter accepted characters over the whole
filtered corpus, the quantity the out of bounds report carries. -/
def corpus_valid_count (es : List Frag) : Nat :=
  ((es.filter (fun e => page_name_filter e.1)).map
    (fun e => (e.2.filter loc_keep).length)).sum

theorem sortByKey_sorted {α : Type} (key : α → Nat) (l : List α) :
    (sortByKey key l).Sorted (keyLe key) :=
  List.sorted_insertionSort (keyLe key) l

theorem sortByKey_perm {α : Type} (key : α → Nat) (l : List α) :
    (sortByKey key l).Perm l :=
  List.perm_insertionSort (keyLe key) l

theorem sorted_perm_eq_of_nodup_keys {α : Type} (key : α → Nat) :
    ∀ {l₁ l₂ : List α}, l₁.Perm l₂ → l₁.Sorted (keyLe key) → l₂.Sorted (keyLe key) →
      (l₁.map key).Nodup → l₁ = l₂ := by
  intro l₁
  induction l₁ with
  | nil =>
    intro l₂ hp _ _ _
    exact (hp.symm.eq_nil).symm
  | cons a t ih =>
    intro l₂ hp h₁ h₂ hnd
    match l₂ with
    | [] => exact absurd hp.eq_nil (by simp)
    | b :: u =>
      have hbmem : b ∈ a :: t := hp.symm.subset (List.mem_cons_self b u)
      have hamem : a ∈ b :: u := hp.subset (List.mem_cons_self a t)
      have hs₁ := List.sorted_cons.mp h₁
      have hs₂ := List.sorted_cons.mp h₂
      have hkey : key a = key b := by
        have hab : key a ≤ key b := by
          rcases List.mem_cons.mp hbmem with h | h
          · rw [h]
          · exact hs₁.1 b h
        have hba : key b ≤ key a := by
          rcases List.mem_cons.mp hamem with h | h
          · rw [h]
          · exact hs₂.1 a h
        exact Nat.le_antisymm hab hba
      have hnd' : (∀ x ∈ t, ¬ key x = key a) ∧ (List.map key t).Nodup := by
        simpa using hnd
      have hb : b = a := by
        rcases List.mem_cons.mp hbmem with h | h
        · exact h
        · exact absurd hkey.symm (hnd'.1 b h)
      subst hb
      have ht : t = u := ih hp.cons_inv hs₁.2 hs₂.2 hnd'.2
      rw [ht]

theorem scanFile_not_reached (pi? : Option Nat) (target : Nat) :
    ∀ (content : List Char) (idx cnt : Nat),
      cnt + (content.filter loc_keep).length ≤ target →
      scanFile pi? target content idx cnt = (none, cnt + (content.filter loc_keep).length) := by
  intro content
  induction content with
  | nil => intro idx cnt _; simp [scanFile]
  | cons c rest ih =>
    intro idx cnt h
    by_cases hc : loc_keep c = true
    · have hlen : (List.filter loc_keep (c :: rest)).length =
          (List.filter loc_keep rest).length + 1 := by
        simp [List.filter, hc]
      rw [hlen] at h
      have hne : cnt ≠ target := by omega
      have hrec := ih (idx + 1) (cnt + 1) (by omega)
      simp only [scanFile]
      rw [if_pos hc, if_neg hne, hrec, hlen]
      have harith : cnt + 1 + (List.filter loc_keep rest).length =
          cnt + ((List.filter loc_keep rest).length + 1) := by omega
      rw [harith]
    · have hlen : (List.filter loc_keep (c :: rest)).length =
          (List.filter loc_keep rest).length := by
        simp [List.filter, hc]
      rw [hlen] at h
      have hrec := ih (idx + 1) cnt h
      simp only [scanFile]
      rw [if_neg hc, hrec, hlen]

theorem scanFile_found (pi target : Nat) :
    ∀ (content : List Char) (idx : Nat), content.any loc_keep = true →
      scanFile (some pi) target content idx target =
        (some (pi, idx + content.findIdx loc_keep), target) := by
  intro content
  induction content with
  | nil => intro idx h; simp at h
  | cons c rest ih =>
    intro idx h
    by_cases hc : loc_keep c = true
    · simp only [scanFile]
      rw [if_pos hc]
      simp [List.findIdx_cons, hc]
    · have hrest : rest.any loc_keep = true := by
        simpa [hc] using h
      have hrec := ih (idx + 1) hrest
      simp only [scanFile]
      rw [if_neg hc, hrec]
      have harith : idx + 1 + rest.findIdx loc_keep =
          idx + (c :: rest).findIdx loc_keep := by
        simp [List.findIdx_cons, hc]
        omega
      rw [harith]

theorem scanFiles_oob (target : Nat) :
    ∀ (fs : List Frag) (cnt : Nat),
      cnt + (fs.map (fun f => (f.2.filter loc_keep).length)).sum ≤ target →
      scanFiles target fs cnt =
        (none, cnt + (fs.map (fun f => (f.2.filter loc_keep).length)).sum) := by
  intro fs
  induction fs with
  | nil => intro cnt _; simp [scanFiles]
  | cons f rest ih =>
    intro cnt h
    simp only [List.map_cons, List.sum_cons] at h ⊢
    have h₁ : cnt + (f.2.filter loc_keep).length ≤ target := by omega
    have hfile := scanFile_not_reached (page_index_of f.1) target f.2 0 cnt h₁
    have hrec := ih (cnt + (f.2.filter loc_keep).length) (by omega)
    simp only [scanFiles, hfile, hrec]
    rw [Nat.add_assoc]

theorem scanFiles_found_zero :
    ∀ (fs : List Frag) (f : Frag) (pi : Nat),
      fs.find? (fun g => g.2.any loc_keep) = some f →
      page_index_of f.1 = some pi →
      scanFiles 0 fs 0 = (some (pi, f.2.findIdx loc_keep), 0) := by
  intro fs
  induction fs with
  | nil => intro f pi h _; simp [List.find?] at h
  | cons g rest ih =>
    intro f pi hf hpi
    by_cases hg : g.2.any loc_keep = true
    · have hgf : g = f := by
        rw [show (g :: rest).find? (fun x => x.2.any loc_keep) = some g from
          List.find?_cons_of_pos rest hg] at hf
        exact Option.some_injective _ hf
      subst hgf
      have hfile := scanFile_found pi 0 g.2 0 hg
      simp only [scanFiles, hpi, hfile]
      simp
    · have hf' : rest.find? (fun x => x.2.any loc_keep) = some f := by
        rwa [show (g :: rest).find? (fun x => x.2.any loc_keep) =
            rest.find? (fun x => x.2.any loc_keep) from
          List.find?_cons_of_neg rest (by simpa using hg)] at hf
      have hzero : (g.2.filter loc_keep).length = 0 := by
        have hall := List.any_eq_false.mp (Bool.not_eq_true _ ▸ hg : g.2.any loc_keep = false)
        simp only [List.length_eq_zero]
        refine List.filter_eq_nil_iff.mpr ?_
        intro a ha
        simpa using hall a ha
      have hfile := scanFile_not_reached (page_index_of g.1) 0 g.2 0 0 (by omega)
      rw [hzero] at hfile
      simp only [scanFiles, hfile]
      exact ih f pi hf' hpi

/-- C9: the character filter applied incrementally by the Offset Locator
while walking fragments accepts exactly the same characters as the
Stream Sanitizer filter: for every character c, the locator counts c if
and only if the sanitizer retains c.  Both sites of main.rs (line 309
and line 425) spell the identical condition. -/
theorem sanitizer_and_locator_filters_agree :
    ∀ c : Char, clean_keep c = loc_keep c :=
  fun _ => rfl

/-- C1: the Stream Sanitizer does not retain only the 64 character
Base64 set.  The Rust filter calls char::is_alphanumeric, which is
Unicode wide, so the character LATIN SMALL LETTER E WITH ACUTE (U+00E9)
is retained by the sanitizer even though it lies outside the claimed
set; this contradicts the comment right above the filter in main.rs
(lines 305 to 307), which promises exactly the set A-Z, a-z, 0-9, plus,
slash.  The retained byte also poisons the later Base64 decode. -/
theorem sanitizer_retains_unicode_alphanumeric :
    sanitize ['é'] = ['é'] ∧ clean_keep 'é' = true ∧ spec_base64_char 'é' = false := by
  decide

/-- C6: one run of the Payload Scanner on a byte buffer appends exactly
one Recovered Payload and the success line when the whole buffer image
decode succeeds, and zero payloads and exactly one failure line carrying
the underlying error text when it fails; in both cases it returns
normally. -/
theorem scanner_single_attempt
    (jpeg_decode : List Nat → Except String JpegImage)
    (st : AppState) (bytes : List Nat) :
    (∀ img, jpeg_decode bytes = .ok img →
      recover_jpegs_from_stream jpeg_decode st bytes =
        { decoded_textures := st.decoded_textures ++ [img],
          decode_logs := st.decode_logs ++ ["-> SUCCESS: Recovered image"] }) ∧
    (∀ e, jpeg_decode bytes = .error e →
      recover_jpegs_from_stream jpeg_decode st bytes =
        { st with decode_logs := st.decode_logs ++ ["-> FAILED to decode image: " ++ e] }) := by
  constructor
  · intro img h
    simp [recover_jpegs_from_stream, h]
  · intro e h
    simp [recover_jpegs_from_stream, h]

/-- Witness for C6 at a concrete failing decode. -/
theorem scanner_single_attempt_witness :
    recover_jpegs_from_stream (fun _ => .error "bad magic") ⟨[], []⟩ [0, 1] =
      { (⟨[], []⟩ : AppState) with
        decode_logs := (⟨[], []⟩ : AppState).decode_logs ++
          ["-> FAILED to decode image: " ++ "bad magic"] } :=
  (scanner_single_attempt (fun _ => .error "bad magic") ⟨[], []⟩ [0, 1]).2 "bad magic" rfl

/-- C7 counterexample: the input 0x0x0 is not well formed hexadecimal
after removing a single optional radix prefix (an x remains), yet the
locator does not report the malformed status for it: the code strips
the prefix 0x repeatedly, so the input is accepted as offset zero and
the walk proceeds to the bounds result. -/
theorem repeated_radix_prefix_not_rejected :
    spec_wellformed_hex "0x0x0".data = false ∧
    perform_hex_jump "0x0x0".data [] = .outOfBounds 0 := by
  decide

/-- C7 amended: for every input string rejected by the code hex parse
(trim whitespace, strip every repeated leading 0x, allow one leading
plus sign, then require nonempty hexadecimal digits with value below
2 to the 64), the Offset Locator reports the distinct malformed input
status and performs no corpus traversal: the result is the same for
every corpus. -/
theorem hexjump_rejects_without_traversal
    (input : List Char) (es es2 : List Frag)
    (h : from_str_radix16 (strip0x (trimChars input)) = none) :
    perform_hex_jump input es = .invalidHex ∧
    perform_hex_jump input es = perform_hex_jump input es2 := by
  constructor
  · simp [perform_hex_jump, h]
  · simp [perform_hex_jump, h]

/-- Witness for C7 at a concrete malformed input. -/
theorem hexjump_rejects_witness :
    perform_hex_jump "zz".data [] = .invalidHex ∧
    perform_hex_jump "zz".data [] =
      perform_hex_jump "zz".data [("page001.txt".data, "A".data)] :=
  hexjump_rejects_without_traversal "zz".data [] [("page001.txt".data, "A".data)] (by decide)

/-- C5 counterexample: a fragment whose identifier fails to parse gets
the sentinel 9999, which is not the maximum possible sequence number: a
fragment named page10000.txt parses to 10000 and sorts after it, so the
unparseable fragment is not placed last. -/
theorem unparseable_fragment_sorts_before_large_number :
    run_seq_key "pagexx.txt".data = 9999 ∧
    rust_parse_nat_bytes (((utf8Encode "pagexx.txt".data).drop 4).take
      ((utf8Encode "pagexx.txt".data).length - 8)) (2 ^ 32) = none ∧
    run_seq_key "page10000.txt".data = 10000 ∧
    sorted_run_files [("page10000.txt".data, "A".data), ("pagexx.txt".data, "B".data)] =
      [("pagexx.txt".data, "B".data), ("page10000.txt".data, "A".data)] := by
  decide

/-- C5 amended: a fragment whose identifier fails to parse a sequence
number is assigned the sentinel key 9999 (not the maximum possible), and
the corpus is sorted ascending by key, so such a fragment is placed
after every fragment whose parsed sequence number is below 9999 but not
necessarily after every parsed fragment, and the relative ordering of
fragments with distinct parsed numbers is unaffected. -/
theorem unparseable_key_is_sentinel_and_sort_ascending :
    (∀ name : List Char,
      rust_parse_nat_bytes (((utf8Encode name).drop 4).take
        ((utf8Encode name).length - 8)) (2 ^ 32) = none →
      run_seq_key name = 9999) ∧
    ∀ es : List Frag, (sorted_run_files es).Sorted (keyLe (fun e => run_seq_key e.1)) := by
  constructor
  · intro name h
    simp only [run_seq_key]
    rw [h]
    rfl
  · intro es
    exact sortByKey_sorted _ _

/-- Witness for C5 at a concrete unparseable name. -/
theorem unparseable_key_sentinel_witness :
    run_seq_key "pagexx.txt".data = 9999 :=
  unparseable_key_is_sentinel_and_sort_ascending.1 "pagexx.txt".data (by decide)

/-- C2 counterexample: two fragments whose keys both fall back to the
sentinel 9999 keep their discovery order under the stable sort, so the
two discovery permutations of the same corpus produce different Encoded
Streams. -/
theorem encoded_stream_discovery_order_dependent :
    [("pagex.txt".data, "X".data), ("pagey.txt".data, "Y".data)].Perm
      [("pagey.txt".data, "Y".data), ("pagex.txt".data, "X".data)] ∧
    encoded_stream [("pagex.txt".data, "X".data), ("pagey.txt".data, "Y".data)] ≠
      encoded_stream [("pagey.txt".data, "Y".data), ("pagex.txt".data, "X".data)] := by
  decide

/-- C4 counterexample: with the corpus consisting of one fragment whose
text is the single character U+00E9, the number of valid Base64 alphabet
characters (the 64 character set of the claim) is zero, the offset 0xFF
derives the encoded domain index 340 which exceeds it, yet the reported
maximum is 1, the count under the Unicode wide code filter, not the true
count 0 of the claim. -/
theorem oob_report_differs_from_spec_alphabet_count :
    (0xFF / 3) * 4 = 340 ∧
    ("é".data.filter spec_base64_char).length = 0 ∧
    perform_hex_jump "0xFF".data [("page001.txt".data, "é".data)] = .outOfBounds 1 ∧
    perform_hex_jump "0xFF".data [("page001.txt".data, "é".data)] ≠
      .outOfBounds (("é".data.filter spec_base64_char).length) := by
  decide

/-- C8 counterexample: on the corpus with the single fragment
page001.txt whose text is a space followed by the letter A, the corpus
is non empty (it holds one valid alphabet character), yet the locator
called with 0x0 reports character index 1, the position of the first
valid character, not character index 0 as the claim states. -/
theorem hexjump_zero_cursor_not_zero :
    (" A".data.any loc_keep = true) ∧
    perform_hex_jump "0x0".data [("page001.txt".data, " A".data)] = .found 0 1 ∧
    perform_hex_jump "0x0".data [("page001.txt".data, " A".data)] ≠ .found 0 0 := by
  decide

/-- C2 amended: for every corpus whose filtered fragments carry pairwise
distinct parsed sort keys, every discovery permutation yields the
identical Encoded Stream, and the concatenation order is ascending by
parsed key.  (Without the distinctness proviso the stable sort preserves
discovery order between equal keys, refuted separately.) -/
theorem encoded_stream_perm_invariant_of_distinct_keys
    (es1 es2 : List Frag) (hp : es1.Perm es2)
    (hnd : ((es1.filter (fun e => page_name_filter e.1)).map
      (fun e => run_seq_key e.1)).Nodup) :
    (sorted_run_files es1).Sorted (keyLe (fun e => run_seq_key e.1)) ∧
    encoded_stream es1 = encoded_stream es2 := by
  have hpf : (es1.filter (fun e => page_name_filter e.1)).Perm
      (es2.filter (fun e => page_name_filter e.1)) := hp.filter _
  have h1 : (sorted_run_files es1).Perm (es1.filter (fun e => page_name_filter e.1)) :=
    sortByKey_perm _ _
  have h2 : (sorted_run_files es2).Perm (es2.filter (fun e => page_name_filter e.1)) :=
    sortByKey_perm _ _
  have hperm : (sorted_run_files es1).Perm (sorted_run_files es2) :=
    (h1.trans hpf).trans h2.symm
  have hnd1 : ((sorted_run_files es1).map (fun e => run_seq_key e.1)).Nodup :=
    ((h1.map _).nodup_iff).mpr hnd
  have heq : sorted_run_files es1 = sorted_run_files es2 :=
    sorted_perm_eq_of_nodup_keys _ hperm (sortByKey_sorted _ _) (sortByKey_sorted _ _) hnd1
  refine ⟨sortByKey_sorted _ _, ?_⟩
  unfold encoded_stream
  rw [heq]

/-- Witness for C2 at a concrete two fragment corpus with distinct
keys, presented in the two discovery orders. -/
theorem encoded_stream_perm_invariant_witness :
    (sorted_run_files [("page002.txt".data, "B".data), ("page001.txt".data, "A".data)]).Sorted
      (keyLe (fun e => run_seq_key e.1)) ∧
    encoded_stream [("page002.txt".data, "B".data), ("page001.txt".data, "A".data)] =
      encoded_stream [("page001.txt".data, "A".data), ("page002.txt".data, "B".data)] :=
  encoded_stream_perm_invariant_of_distinct_keys
    [("page002.txt".data, "B".data), ("page001.txt".data, "A".data)]
    [("page001.txt".data, "A".data), ("page002.txt".data, "B".data)]
    (by decide) (by decide)

/-- C4 amended: for every corpus and every accepted hexadecimal offset
whose derived encoded domain index, computed as (offset / 3) * 4 in
wrapping 64 bit arithmetic as the source does, exceeds the total number
of characters accepted by the locator filter across the filtered
corpus, the Offset Locator returns the out of bounds result whose
reported maximum equals that total count; the outcome is distinct from
the malformed input status by construction.  (The claim as frozen names
the 64 character Base64 alphabet, refuted separately: the code counts
under the Unicode wide filter.) -/
theorem hexjump_out_of_bounds_reports_total_count
    (input : List Char) (es : List Frag) (off : Nat)
    (hp : from_str_radix16 (strip0x (trimChars input)) = some off)
    (hb : corpus_valid_count es < off / 3 * 4 % 2 ^ 64) :
    perform_hex_jump input es = .outOfBounds (corpus_valid_count es) := by
  have hsum : ((sorted_loc_files es).map (fun f => (f.2.filter loc_keep).length)).sum =
      corpus_valid_count es :=
    List.Perm.sum_eq ((sortByKey_perm _ _).map _)
  have hscan := scanFiles_oob (off / 3 * 4 % 2 ^ 64) (sorted_loc_files es) 0 (by omega)
  simp only [perform_hex_jump, hp]
  rw [hscan]
  simp only [Nat.zero_add]
  rw [hsum]

/-- Witness for C4 at a concrete corpus and offset. -/
theorem hexjump_out_of_bounds_witness :
    perform_hex_jump "0xFF".data [("page001.txt".data, "AB".data)] =
      .outOfBounds (corpus_valid_count [("page001.txt".data, "AB".data)]) :=
  hexjump_out_of_bounds_reports_total_count "0xFF".data
    [("page001.txt".data, "AB".data)] 255 (by decide) (by decide)

/-- C8 amended: calling the Offset Locator with 0x0 reports the first
fragment, in ascending locator key order, that contains a filter
accepted character, together with the in-fragment character index
(counted over all characters) of its first accepted character, provided
the digits of that fragment name parse as a u16; this is not always the
fragment with the lowest sequence number, and the index is not always 0
(both refuted separately). -/
theorem hexjump_zero_reports_first_valid_char
    (es : List Frag) (f : Frag) (pi : Nat)
    (hf : (sorted_loc_files es).find? (fun g => g.2.any loc_keep) = some f)
    (hpi : page_index_of f.1 = some pi) :
    perform_hex_jump "0x0".data es = .found pi (f.2.findIdx loc_keep) := by
  have hparse : from_str_radix16 (strip0x (trimChars "0x0".data)) = some 0 := by decide
  have hscan := scanFiles_found_zero (sorted_loc_files es) f pi hf hpi
  simp only [perform_hex_jump, hparse]
  have htgt : (0 : Nat) / 3 * 4 % 2 ^ 64 = 0 := by norm_num
  rw [htgt, hscan]

/-- Witness for C8 at a concrete corpus. -/
theorem hexjump_zero_witness :
    perform_hex_jump "0x0".data [("page007.txt".data, "\n+Q".data)] =
      .found 6 ("\n+Q".data.findIdx loc_keep) :=
  hexjump_zero_reports_first_valid_char
    [("page007.txt".data, "\n+Q".data)] ("page007.txt".data, "\n+Q".data) 6
    (by decide) (by decide)

theorem pushLog_textures (st : AppState) (s : String) :
    (pushLog st s).decoded_textures = st.decoded_textures :=
  rfl

theorem pushLog_getLast (st : AppState) (s : String) :
    (pushLog st s).decode_logs.getLast? = some s :=
  List.getLast?_concat _

theorem foldl_pushLog_textures (g : Frag → String) :
    ∀ (l : List Frag) (st : AppState),
      (l.foldl (fun acc f => pushLog acc (g f)) st).decoded_textures =
        st.decoded_textures := by
  intro l
  induction l with
  | nil => intro st; rfl
  | cons f t ih =>
    intro st
    rw [List.foldl_cons, ih]
    rfl

/-- C3: every run of the forward pipeline discards the Recovered
Payloads and the log lines of the previous run before doing any work
(the result never depends on the previous state), and when the
permissive decode fails the run ends with zero Recovered Payloads, its
last log line is the critical decode failure line carrying the error
text, and the Payload Scanner is never invoked (the result does not
depend on the image decoder either). -/
theorem run_discards_previous_and_halts_on_decode_error
    (b64_decode : List Nat → Except String (List Nat))
    (jpeg_decode jpeg_decode2 : List Nat → Except String JpegImage)
    (prev prev2 : AppState) (entries : List Frag) :
    run_stream_decoding b64_decode jpeg_decode prev entries =
      run_stream_decoding b64_decode jpeg_decode prev2 entries ∧
    ∀ e, b64_decode (utf8Encode (clean_stream entries)) = .error e →
      (run_stream_decoding b64_decode jpeg_decode prev entries).decoded_textures = [] ∧
      (run_stream_decoding b64_decode jpeg_decode prev entries).decode_logs.getLast? =
        some ("CRITICAL: Base64 decoding failed even with permissive mode: " ++ e) ∧
      run_stream_decoding b64_decode jpeg_decode prev entries =
        run_stream_decoding b64_decode jpeg_decode2 prev2 entries := by
  refine ⟨rfl, ?_⟩
  intro e he
  have he' : b64_decode (utf8Encode (sanitize
      (((sorted_run_files entries).map (fun x => x.2)).flatten))) = Except.error e := he
  have hbody : ∀ (jd : List Nat → Except String JpegImage) (pv : AppState),
      run_stream_decoding b64_decode jd pv entries =
        pushLog (pushLog (pushLog ((sorted_run_files entries).foldl
              (fun acc f => pushLog acc ("Loaded: \"" ++ String.mk f.1 ++ "\""))
              (pushLog { decoded_textures := [], decode_logs := [] }
                "Scanning current directory for page*.txt..."))
            ("Total raw length: " ++
              toString (utf8Encode
                (((sorted_run_files entries).map (fun x => x.2)).flatten)).length
              ++ " characters"))
          ("Cleaned Base64 length: " ++
            toString (utf8Encode (sanitize
              (((sorted_run_files entries).map (fun x => x.2)).flatten))).length
            ++ " characters"))
        ("CRITICAL: Base64 decoding failed even with permissive mode: " ++ e) := by
    intro jd pv
    simp only [run_stream_decoding, he']
  refine ⟨?_, ?_, ?_⟩
  · rw [hbody jpeg_decode prev, pushLog_textures, pushLog_textures, pushLog_textures,
      foldl_pushLog_textures, pushLog_textures]
  · rw [hbody jpeg_decode prev]
    exact pushLog_getLast _ _
  · rw [hbody jpeg_decode prev, hbody jpeg_decode2 prev2]

/-- Witness for C3 at a corpus whose cleaned stream has length 1 and a
decoder that rejects it, with arbitrary differing previous states. -/
theorem run_discards_previous_witness :
    run_stream_decoding (fun _ => .error "Invalid input length: 1")
        (fun _ => .error "no image") ⟨[⟨1, 1, [0]⟩], ["stale"]⟩
        [("page001.txt".data, "A".data)] =
      run_stream_decoding (fun _ => .error "Invalid input length: 1")
        (fun _ => .error "no image") ⟨[], []⟩ [("page001.txt".data, "A".data)] ∧
    (run_stream_decoding (fun _ => .error "Invalid input length: 1")
        (fun _ => .error "no image") ⟨[⟨1, 1, [0]⟩], ["stale"]⟩
        [("page001.txt".data, "A".data)]).decoded_textures = [] ∧
    (run_stream_decoding (fun _ => .error "Invalid input length: 1")
        (fun _ => .error "no image") ⟨[⟨1, 1, [0]⟩], ["stale"]⟩
        [("page001.txt".data, "A".data)]).decode_logs.getLast? =
      some ("CRITICAL: Base64 decoding failed even with permissive mode: " ++
        "Invalid input length: 1") ∧
    run_stream_decoding (fun _ => .error "Invalid input length: 1")
        (fun _ => .error "no image") ⟨[⟨1, 1, [0]⟩], ["stale"]⟩
        [("page001.txt".data, "A".data)] =
      run_stream_decoding (fun _ => .error "Invalid input length: 1")
        (fun _ => .ok ⟨9, 9, [7]⟩) ⟨[], []⟩ [("page001.txt".data, "A".data)] := by
  have h := run_discards_previous_and_halts_on_decode_error
    (fun _ => .error "Invalid input length: 1") (fun _ => .error "no image")
    (fun _ => .ok ⟨9, 9, [7]⟩) ⟨[⟨1, 1, [0]⟩], ["stale"]⟩ ⟨[], []⟩
    [("page001.txt".data, "A".data)]
  exact ⟨h.1, h.2 "Invalid input length: 1" rfl⟩

theorem utf8Encode_append (a b : List Char) :
    utf8Encode (a ++ b) = utf8Encode a ++ utf8Encode b := by
  simp [utf8Encode]

theorem utf8EncodeChar_leading (c : Char) :
    ∃ b t, utf8EncodeChar c = b :: t ∧ (b < 0x80 ∨ 0xC0 ≤ b) := by
  by_cases h1 : c.toNat < 0x80
  · refine ⟨c.toNat, [], ?_, Or.inl h1⟩
    simp [utf8EncodeChar, h1]
  · by_cases h2 : c.toNat < 0x800
    · refine ⟨0xC0 + c.toNat / 64, [0x80 + c.toNat % 64], ?_, Or.inr (by omega)⟩
      simp [utf8EncodeChar, h1, h2]
    · by_cases h3 : c.toNat < 0x10000
      · refine ⟨0xE0 + c.toNat / 4096,
          [0x80 + c.toNat / 64 % 64, 0x80 + c.toNat % 64], ?_, Or.inr (by omega)⟩
        simp [utf8EncodeChar, h1, h2, h3]
      · refine ⟨0xF0 + c.toNat / 262144,
          [0x80 + c.toNat / 4096 % 64, 0x80 + c.toNat / 64 % 64, 0x80 + c.toNat % 64],
          ?_, Or.inr (by omega)⟩
        simp [utf8EncodeChar, h1, h2, h3]

/-- C10: for every file name that passes the directory filter (starts
with page and ends with .txt), the fixed byte offset slice
name[4..len-4] taken by the sort key of the forward pipeline is defined:
both offsets land on character boundaries of the UTF-8 bytes and are in
range, for every name including names with multi byte characters, so
computing the sort key never panics. -/
theorem sort_key_slice_never_panics (name : List Char)
    (hs : "page".data.isPrefixOf name = true)
    (he : ".txt".data.isSuffixOf name = true) :
    (str_slice (utf8Encode name) 4 ((utf8Encode name).length - 4)).isSome = true := by
  obtain ⟨rest, hrest⟩ := List.isPrefixOf_iff_prefix.mp hs
  obtain ⟨mid, hmid⟩ := List.isSuffixOf_iff_suffix.mp he
  have hpage : utf8Encode "page".data = [0x70, 0x61, 0x67, 0x65] := by decide
  have htxt : utf8Encode ".txt".data = [0x2E, 0x74, 0x78, 0x74] := by decide
  have hB1 : utf8Encode name = [0x70, 0x61, 0x67, 0x65] ++ utf8Encode rest := by
    rw [← hrest, utf8Encode_append, hpage]
  have hB2 : utf8Encode name = utf8Encode mid ++ [0x2E, 0x74, 0x78, 0x74] := by
    rw [← hmid, utf8Encode_append, htxt]
  have hlen1 : (utf8Encode name).length = 4 + (utf8Encode rest).length := by
    rw [hB1]; simp; omega
  have hlen2 : (utf8Encode name).length = (utf8Encode mid).length + 4 := by
    rw [hB2]; simp
  have hdot : (utf8Encode name)[(utf8Encode mid).length]? = some 0x2E := by
    rw [hB2, List.getElem?_append_right (Nat.le_refl _)]
    simp
  have h8 : 8 ≤ (utf8Encode name).length := by
    by_contra hlt
    have hk : (utf8Encode mid).length < 4 := by omega
    have hpref : (utf8Encode name)[(utf8Encode mid).length]? =
        [0x70, 0x61, 0x67, 0x65][(utf8Encode mid).length]? := by
      rw [hB1]
      exact List.getElem?_append_left (by simpa using hk)
    rw [hdot] at hpref
    have hcases : (utf8Encode mid).length = 0 ∨ (utf8Encode mid).length = 1 ∨
        (utf8Encode mid).length = 2 ∨ (utf8Encode mid).length = 3 := by omega
    rcases hcases with h | h | h | h <;> rw [h] at hpref <;> simp at hpref
  have hbnd4 : is_char_boundary (utf8Encode name) 4 = true := by
    match rest, hlen1 with
    | [], hlen1 =>
      exfalso
      rw [show utf8Encode ([] : List Char) = [] from rfl] at hlen1
      simp at hlen1
      omega
    | c :: rs, hlen1 =>
      obtain ⟨b, t, hbt, hlead⟩ := utf8EncodeChar_leading c
      have hb4 : (utf8Encode name)[4]? = some b := by
        rw [hB1]
        rw [List.getElem?_append_right (by simp)]
        have hcrs : utf8Encode (c :: rs) = b :: (t ++ utf8Encode rs) := by
          simp [utf8Encode, hbt]
        rw [hcrs]
        simp
      simp only [is_char_boundary, hb4, Bool.or_eq_true, beq_iff_eq, decide_eq_true_eq]
      tauto
  have hbndE : is_char_boundary (utf8Encode name) ((utf8Encode name).length - 4) = true := by
    have hidx : (utf8Encode name).length - 4 = (utf8Encode mid).length := by omega
    rw [hidx]
    simp [is_char_boundary, hdot]
  unfold str_slice
  rw [if_pos ⟨by omega, hbnd4, hbndE⟩]
  rfl

/-- Witness for C10 at a concrete file name containing a multi byte
character. -/
theorem sort_key_slice_witness :
    (str_slice (utf8Encode "pageé5.txt".data) 4
      ((utf8Encode "pageé5.txt".data).length - 4)).isSome = true :=
  sort_key_slice_never_panics "pageé5.txt".data (by decide) (by decide)

end B64Recover
